import Mathlib

/-!
Verification of the ACL validation engine of `src/acl_management.py`
(TgGeda/acl_management-tool).

The Python program is shallowly embedded: pure functions become Lean
functions, Python exceptions that can escape a modelled function are made
explicit with `Except PyErr`, dictionary field access becomes access to
`Option`-typed record fields (a missing key raises `KeyError`), and the
log records produced by `validate_acl_rules` are modelled as an explicit
list of `Finding`s accumulated in program order.

The address arithmetic of the Python standard library module `ipaddress`
is modelled for the IPv4 dotted-quad grammar (the grammar all inputs of
this repository and its specification use):
  * `ipaddress.ip_address(s)` accepts exactly four decimal octets
    separated by dots, each at most three digits, without leading zeros,
    with value at most 255; anything else raises `ValueError`.
  * `ipaddress.ip_network(s, strict := False)` splits at the single `/`,
    parses the left part as an address and the right part as a decimal
    prefix length at most 32, and masks the host bits away.
  * `IPv4Network.overlaps other` is only defined on networks: looking the
    method up on an `IPv4Address` raises `AttributeError`, and passing an
    `IPv4Address` as `other` raises `TypeError` (an address is not a
    container).  For two networks it tests whether either endpoint of one
    network lies in the other, which for CIDR blocks is interval
    intersection.
`check_overlap` catches exactly `ValueError` (returning `False`); the
`AttributeError`/`TypeError`/`KeyError` cases propagate to the caller,
which the embedding records as `Except.error`.
-/

namespace ACLTool

/-- Python exceptions that can escape the modelled functions
(`ValueError` never escapes: `check_overlap` catches it). -/
inductive PyErr where
  | keyError
  | typeError
  | attributeError
  deriving DecidableEq, Repr

deriving instance DecidableEq for Except

/-- Split a character list at every occurrence of `sep`, keeping empty
pieces, like Python `str.split` with a one-character separator.  The
second argument accumulates the piece currently being read (reversed). -/
def splitOnChar (sep : Char) : List Char → List Char → List (List Char)
  | [], acc => [acc.reverse]
  | c :: cs, acc =>
    if c = sep then acc.reverse :: splitOnChar sep cs []
    else splitOnChar sep cs (c :: acc)

/-- One decimal octet of a dotted quad, per `ipaddress._parse_octet`:
ascii digits only, at most 3 of them, no leading zero, value ≤ 255. -/
def parseOctet (cs : List Char) : Option Nat :=
  if cs.length = 0 ∨ 3 < cs.length then none
  else if ¬ cs.all (fun c => c.isDigit) then none
  else if 1 < cs.length ∧ cs.head? = some '0' then none
  else
    let v := cs.foldl (fun n c => n * 10 + (c.toNat - 48)) 0
    if 255 < v then none else some v

/-- `ipaddress.IPv4Address` of a character list: exactly four octets
separated by dots. -/
def parseOctets4 (cs : List Char) : Option Nat :=
  match splitOnChar '.' cs [] with
  | [a, b, c, d] =>
    match parseOctet a, parseOctet b, parseOctet c, parseOctet d with
    | some x, some y, some z, some w => some (((x * 256 + y) * 256 + z) * 256 + w)
    | _, _, _, _ => none
  | _ => none

/-- `ipaddress.IPv4Address` of a string. -/
def parseIPv4 (s : String) : Option Nat := parseOctets4 s.data

/-- Prefix length per `ipaddress._prefix_from_prefix_string`:
ascii digits with value at most 32. -/
def parsePrefixLen (cs : List Char) : Option Nat :=
  if cs.length = 0 then none
  else if ¬ cs.all (fun c => c.isDigit) then none
  else
    let v := cs.foldl (fun n c => n * 10 + (c.toNat - 48)) 0
    if 32 < v then none else some v

/-- Number of addresses covered by the host part of a `/p` network. -/
def hostBits (p : Nat) : Nat := 2 ^ (32 - p)

/-- Mask the host bits of `x` away (`x & netmask` for prefix length `p`). -/
def maskDown (p x : Nat) : Nat := x / hostBits p * hostBits p

/-- `ipaddress.ip_network(s, strict := False)`: address part `/` decimal
prefix, host bits masked away.  Returns (network address, prefix length). -/
def parseNet (s : String) : Option (Nat × Nat) :=
  match splitOnChar '/' s.data [] with
  | [a, p] =>
    match parseOctets4 a, parsePrefixLen p with
    | some x, some pl => some (maskDown pl x, pl)
    | _, _ => none
  | _ => none

/-- The value `net1`/`net2` of `check_overlap` holds: an `IPv4Address`
or an `IPv4Network` (network address plus prefix length). -/
inductive IPValue where
  | addr (a : Nat)
  | net (n : Nat) (p : Nat)
  deriving DecidableEq, Repr

/-- `ipaddress.ip_network(s, strict := False) if '/' in s else
ipaddress.ip_address(s)`; `none` is a `ValueError`. -/
def parseValue (s : String) : Option IPValue :=
  if s.data.contains '/' then (parseNet s).map (fun np => IPValue.net np.1 np.2)
  else (parseIPv4 s).map IPValue.addr

/-- `addr in network` for an IPv4 network (`IPv4Network.__contains__`):
the masked address equals the network address. -/
def inNet (x n p : Nat) : Bool := maskDown p x == n

/-- `IPv4Network.broadcast_address` as an integer. -/
def broadcastAddr (n p : Nat) : Nat := n + (hostBits p - 1)

/-- `IPv4Network.overlaps` on two networks: either endpoint of one lies in
the other. -/
def netOverlaps (n1 p1 n2 p2 : Nat) : Bool :=
  inNet n1 n2 p2 || inNet (broadcastAddr n1 p1) n2 p2 ||
    inNet n2 n1 p1 || inNet (broadcastAddr n2 p2) n1 p1

/-- The attempt `net1.overlaps(net2)`: the method does not exist on an
`IPv4Address` (`AttributeError`), and an `IPv4Address` argument is not a
container (`TypeError`); neither is a `ValueError`, so neither is caught
by `check_overlap`. -/
def ipOverlapsMethod : IPValue → IPValue → Except PyErr Bool
  | IPValue.addr _, _ => Except.error PyErr.attributeError
  | IPValue.net _ _, IPValue.addr _ => Except.error PyErr.typeError
  | IPValue.net n1 p1, IPValue.net n2 p2 => Except.ok (netOverlaps n1 p1 n2 p2)

/-- `check_overlap(source1, dest1, source2, dest2)` of
`src/acl_management.py`: parses only the two source arguments (a
`ValueError` from parsing is caught and yields `False`), then calls
`net1.overlaps(net2)`.  The two destination arguments are accepted and
ignored, exactly as in the source. -/
def check_overlap (source1 _dest1 source2 _dest2 : String) : Except PyErr Bool :=
  match parseValue source1, parseValue source2 with
  | some v1, some v2 => ipOverlapsMethod v1 v2
  | _, _ => Except.ok false

/-- The role strings of `USER_ROLES`. -/
def roleReadOnly : String := "read-only"

/-- The `admin` role string. -/
def roleReadWrite : String := "read-write"

/-- The `permit` action string. -/
def actionPermit : String := "permit"

/-- The `deny` action string. -/
def actionDeny : String := "deny"

/-- One ACL rule dictionary.  Every field is optional because the Python
rules are plain dictionaries; `none` models an absent key. -/
structure Rule where
  acl_number : Option Int
  action : Option String
  protocol : Option String
  source : Option String
  destination : Option String
  port : Option Int
  deriving DecidableEq, Repr

/-- One validation problem, corresponding to one `logging.error` call of
`validate_acl_rules`.  Rules are identified by their index in the input
list (for the two pair findings, the indices of both rules involved: for
`permitDenyConflict` the permit rule first, for `overlapPair` the lower
index first). -/
inductive Finding where
  | missingField (i : Nat)
  | permissionDenied (i : Nat)
  | duplicateAcl (i : Nat)
  | permitDenyConflict (i : Nat) (j : Nat)
  | overlapPair (i : Nat) (j : Nat)
  deriving DecidableEq, Repr

/-- State of the first `for rule in rules` loop of `validate_acl_rules`:
the `valid` flag, the `seen_acls` set (a list suffices: it is only used
for membership), the `permit_rules`/`deny_rules` buckets (each rule
paired with its index in the input), and the findings logged so far. -/
structure LoopState where
  valid : Bool
  seen : List Int
  permits : List (Nat × Rule)
  denies : List (Nat × Rule)
  findings : List Finding
  deriving Repr

/-- Initial loop state. -/
def initState : LoopState :=
  { valid := true, seen := [], permits := [], denies := [], findings := [] }

/-- One iteration of the first loop of `validate_acl_rules` on the rule
with index `ir.1`.  Mirrors the Python control flow: missing required
field ⇒ log and `continue`; read-only role with a deny rule ⇒ log and
`continue`; duplicate `acl_number` ⇒ log, otherwise record the number;
finally bucket the rule by action. -/
def processRule (role : String) (st : LoopState) (ir : Nat × Rule) : LoopState :=
  let r := ir.2
  if r.acl_number = none ∨ r.action = none ∨ r.protocol = none then
    { st with valid := false, findings := st.findings ++ [Finding.missingField ir.1] }
  else if role = roleReadOnly ∧ r.action = some actionDeny then
    { st with valid := false, findings := st.findings ++ [Finding.permissionDenied ir.1] }
  else
    let st1 :=
      if r.acl_number.getD 0 ∈ st.seen then
        { st with valid := false, findings := st.findings ++ [Finding.duplicateAcl ir.1] }
      else
        { st with seen := st.seen ++ [r.acl_number.getD 0] }
    if r.action = some actionPermit then { st1 with permits := st1.permits ++ [ir] }
    else if r.action = some actionDeny then { st1 with denies := st1.denies ++ [ir] }
    else st1

/-- Pair a list with indices starting at `k` (`enumerate`). -/
def enumF {α : Type} : Nat → List α → List (Nat × α)
  | _, [] => []
  | k, x :: xs => (k, x) :: enumF (k + 1) xs

/-- All ordered pairs (earlier element first), in the order of the nested
loops `for i in range(n): for j in range(i+1, n)`. -/
def allPairs {α : Type} : List α → List (α × α)
  | [] => []
  | x :: xs => xs.map (fun y => (x, y)) ++ allPairs xs

/-- The nested loops `for permit in permit_rules: for deny in deny_rules`. -/
def prodPairs {α β : Type} : List α → List β → List (α × β)
  | [], _ => []
  | x :: xs, ys => ys.map (fun y => (x, y)) ++ prodPairs xs ys

/-- One comparison of two rules by `validate_acl_rules`: compare the
`protocol` fields, and if equal evaluate all four address arguments and
call `check_overlap`.  Any Python exception (a `KeyError` from a missing
field or an escape from `check_overlap`) aborts the scan.  `mk` builds
the finding logged on overlap (from the two rule indices). -/
def overlapCheck (mk : Nat → Nat → Finding) (pr : (Nat × Rule) × (Nat × Rule)) :
    Except PyErr (Option Finding) :=
  match pr.1.2.protocol, pr.2.2.protocol with
  | some p1, some p2 =>
    if p1 = p2 then
      match pr.1.2.source, pr.1.2.destination, pr.2.2.source, pr.2.2.destination with
      | some s1, some d1, some s2, some d2 =>
        match check_overlap s1 d1 s2 d2 with
        | Except.error e => Except.error e
        | Except.ok true => Except.ok (some (mk pr.1.1 pr.2.1))
        | Except.ok false => Except.ok none
      | _, _, _, _ => Except.error PyErr.keyError
    else Except.ok none
  | _, _ => Except.error PyErr.keyError

/-- Run a sequence of pair comparisons, accumulating findings and the
`valid` flag, stopping at the first Python exception (which the caller
of `validate_acl_rules` then sees). -/
def runChecks {α : Type} (f : α → Except PyErr (Option Finding)) :
    List α → List Finding × Bool → List Finding × Except PyErr Bool
  | [], st => (st.1, Except.ok st.2)
  | x :: xs, st =>
    match f x with
    | Except.error e => (st.1, Except.error e)
    | Except.ok none => runChecks f xs st
    | Except.ok (some fd) => runChecks f xs (st.1 ++ [fd], false)

/-- State after the first `for rule in rules` loop of
`validate_acl_rules`. -/
def loopState (role : String) (rules : List Rule) : LoopState :=
  (enumF 0 rules).foldl (processRule role) initState

/-- State after the permit/deny conflict scan (the second pair of nested
loops) of `validate_acl_rules`. -/
def conflictScan (role : String) (rules : List Rule) :
    List Finding × Except PyErr Bool :=
  runChecks (overlapCheck Finding.permitDenyConflict)
    (prodPairs (loopState role rules).permits (loopState role rules).denies)
    ((loopState role rules).findings, (loopState role rules).valid)

/-- `validate_acl_rules(rules)` of `src/acl_management.py`.  The ambient
global `current_role` is passed explicitly as `role` (the spec's
`PermissionContext`).  Returns the findings logged before returning or
raising, and either the returned verdict or the escaping exception: first
the per-rule loop, then the permit/deny conflict scan, then the all-pairs
overlap scan. -/
def validate_acl_rules (role : String) (rules : List Rule) :
    List Finding × Except PyErr Bool :=
  match (conflictScan role rules).2 with
  | Except.error _ => conflictScan role rules
  | Except.ok v => runChecks (overlapCheck Finding.overlapPair)
      (allPairs (enumF 0 rules)) ((conflictScan role rules).1, v)

/-- Device interactions of the Applier, abstracted to a trace of effect
tokens (the real transport work of `netmiko` is out of scope; what
matters here is whether any interaction happens at all). -/
inductive Effect where
  | backupConfig
  | openConnection
  | renderCommands
  | sendConfigSet
  | dryRunPrint
  deriving DecidableEq, Repr

/-- `configure_acls(device, rules, dry_run)` of `src/acl_management.py`,
with the device argument abstracted away (it is only threaded to the
transport): if validation fails the function logs and returns without
touching the device; on a dry run it renders the commands and prints
them; otherwise it backs up the configuration, opens a connection,
renders and sends the commands.  An exception escaping
`validate_acl_rules` propagates before any device interaction. -/
def configure_acls (role : String) (rules : List Rule) (dry_run : Bool) :
    List Effect × Except PyErr Unit :=
  match (validate_acl_rules role rules).2 with
  | Except.error e => ([], Except.error e)
  | Except.ok false => ([], Except.ok ())
  | Except.ok true =>
    if dry_run then
      ([Effect.renderCommands, Effect.dryRunPrint], Except.ok ())
    else
      ([Effect.backupConfig, Effect.openConnection, Effect.renderCommands,
        Effect.sendConfigSet], Except.ok ())

/-! ### Helper lemmas about the overlap primitive -/

theorem netOverlaps_symm (n1 p1 n2 p2 : Nat) :
    netOverlaps n2 p2 n1 p1 = netOverlaps n1 p1 n2 p2 := by
  simp only [netOverlaps]
  cases inNet n1 n2 p2 <;> cases inNet (broadcastAddr n1 p1) n2 p2 <;>
    cases inNet n2 n1 p1 <;> cases inNet (broadcastAddr n2 p2) n1 p1 <;> rfl

/-- Whenever `check_overlap` returns normally, swapping the two rules
gives the same verdict: parse failures yield `False` both ways, and
network-network overlap is symmetric.  (The exceptional cases are not
symmetric, but they never return.) -/
theorem check_overlap_ok_symm (s1 d1 s2 d2 d1' d2' : String) (b : Bool)
    (h : check_overlap s1 d1 s2 d2 = Except.ok b) :
    check_overlap s2 d2' s1 d1' = Except.ok b := by
  unfold check_overlap at h ⊢
  cases h1 : parseValue s1 with
  | none =>
    cases h2 : parseValue s2 with
    | none => simp [h1, h2] at h ⊢; exact h
    | some v2 => simp [h1, h2] at h ⊢; exact h
  | some v1 =>
    cases h2 : parseValue s2 with
    | none => simp [h1, h2] at h ⊢; exact h
    | some v2 =>
      simp only [h1, h2] at h ⊢
      cases v1 with
      | addr a => simp [ipOverlapsMethod] at h
      | net n1 p1 =>
        cases v2 with
        | addr a => simp [ipOverlapsMethod] at h
        | net n2 p2 =>
          simp only [ipOverlapsMethod, Except.ok.injEq] at h ⊢
          rw [netOverlaps_symm]
          exact h

/-! ### Helper lemmas about `runChecks` -/

theorem runChecks_mem_mono {α : Type} (f : α → Except PyErr (Option Finding))
    (xs : List α) (st : List Finding × Bool) (fd : Finding) (h : fd ∈ st.1) :
    fd ∈ (runChecks f xs st).1 := by
  induction xs generalizing st with
  | nil => exact h
  | cons x xs ih =>
    rw [runChecks]
    cases hf : f x with
    | error e => exact h
    | ok o =>
      cases o with
      | none => exact ih st h
      | some fd' => exact ih _ (List.mem_append_left _ h)

theorem runChecks_count {α : Type} (f : α → Except PyErr (Option Finding))
    (xs : List α) (st : List Finding × Bool) (fd : Finding)
    (hne : ∀ x ∈ xs, ∀ fd', f x = Except.ok (some fd') → fd' ≠ fd) :
    (runChecks f xs st).1.count fd = st.1.count fd := by
  induction xs generalizing st with
  | nil => rfl
  | cons x xs ih =>
    rw [runChecks]
    cases hf : f x with
    | error e => rfl
    | ok o =>
      cases o with
      | none => exact ih st (fun y hy => hne y (List.mem_cons_of_mem _ hy))
      | some fd' =>
        rw [ih _ (fun y hy => hne y (List.mem_cons_of_mem _ hy))]
        have hne' : fd' ≠ fd := hne x (List.mem_cons_self _ _) fd' hf
        have hz : List.count fd [fd'] = 0 :=
          List.count_eq_zero.mpr (fun hmem => hne' (List.mem_singleton.mp hmem).symm)
        rw [List.count_append, hz]
        rfl

theorem runChecks_all_none {α : Type} (f : α → Except PyErr (Option Finding))
    (xs : List α) (st : List Finding × Bool) (h : ∀ x ∈ xs, f x = Except.ok none) :
    runChecks f xs st = (st.1, Except.ok st.2) := by
  induction xs generalizing st with
  | nil => rfl
  | cons x xs ih =>
    rw [runChecks, h x (List.mem_cons_self _ _)]
    exact ih st (fun y hy => h y (List.mem_cons_of_mem _ hy))

theorem runChecks_complete {α : Type} (f : α → Except PyErr (Option Finding))
    (xs : List α) (st : List Finding × Bool) (x : α) (fd : Finding) (v : Bool)
    (hok : (runChecks f xs st).2 = Except.ok v) (hx : x ∈ xs)
    (hfd : f x = Except.ok (some fd)) :
    fd ∈ (runChecks f xs st).1 := by
  induction xs generalizing st with
  | nil => cases hx
  | cons y ys ih =>
    rw [runChecks] at hok ⊢
    cases hy : f y with
    | error e => rw [hy] at hok; cases hok
    | ok o =>
      rw [hy] at hok
      rcases List.mem_cons.mp hx with rfl | hx'
      · rw [hfd] at hy
        cases hy
        exact runChecks_mem_mono f ys _ fd
          (List.mem_append_right _ (List.mem_singleton.mpr rfl))
      · cases o with
        | none => exact ih st hok hx'
        | some fd' => exact ih _ hok hx'

theorem runChecks_sticky {α : Type} (f : α → Except PyErr (Option Finding))
    (xs : List α) (st : List Finding × Bool) (v : Bool)
    (hok : (runChecks f xs st).2 = Except.ok v) (hst : st.2 = false) : v = false := by
  induction xs generalizing st with
  | nil =>
    rw [runChecks] at hok
    cases hok
    exact hst
  | cons x xs ih =>
    rw [runChecks] at hok
    cases hf : f x with
    | error e => rw [hf] at hok; cases hok
    | ok o =>
      rw [hf] at hok
      cases o with
      | none => exact ih st hok hst
      | some fd' => exact ih _ hok rfl

theorem runChecks_mem_cases {α : Type} (f : α → Except PyErr (Option Finding))
    (xs : List α) (st : List Finding × Bool) (fd : Finding)
    (h : fd ∈ (runChecks f xs st).1) :
    fd ∈ st.1 ∨ ∃ x ∈ xs, f x = Except.ok (some fd) := by
  induction xs generalizing st with
  | nil => exact Or.inl h
  | cons x xs ih =>
    rw [runChecks] at h
    cases hf : f x with
    | error e => rw [hf] at h; exact Or.inl h
    | ok o =>
      rw [hf] at h
      cases o with
      | none =>
        rcases ih st h with h1 | ⟨y, hy, hfy⟩
        · exact Or.inl h1
        · exact Or.inr ⟨y, List.mem_cons_of_mem _ hy, hfy⟩
      | some fd' =>
        rcases ih _ h with h1 | ⟨y, hy, hfy⟩
        · rcases List.mem_append.mp h1 with h2 | h2
          · exact Or.inl h2
          · rcases List.mem_singleton.mp h2 with rfl
            exact Or.inr ⟨x, List.mem_cons_self _ _, hf⟩
        · exact Or.inr ⟨y, List.mem_cons_of_mem _ hy, hfy⟩

/-- Anything `overlapCheck mk` reports is an `mk` finding for the indices
of the compared pair, and it only reports when the protocols agree, all
four address fields are present, and `check_overlap` returned `True`. -/
theorem overlapCheck_ok_some (mk : Nat → Nat → Finding)
    (pr : (Nat × Rule) × (Nat × Rule)) (fd : Finding)
    (h : overlapCheck mk pr = Except.ok (some fd)) :
    fd = mk pr.1.1 pr.2.1 ∧
      ∃ p s1 d1 s2 d2,
        pr.1.2.protocol = some p ∧ pr.2.2.protocol = some p ∧
        pr.1.2.source = some s1 ∧ pr.1.2.destination = some d1 ∧
        pr.2.2.source = some s2 ∧ pr.2.2.destination = some d2 ∧
        check_overlap s1 d1 s2 d2 = Except.ok true := by
  cases hp1 : pr.1.2.protocol with
  | none => simp [overlapCheck, hp1] at h
  | some p1 =>
  cases hp2 : pr.2.2.protocol with
  | none => simp [overlapCheck, hp1, hp2] at h
  | some p2 =>
  by_cases hpe : p1 = p2
  case neg => simp [overlapCheck, hp1, hp2, hpe] at h
  case pos =>
  cases hs1 : pr.1.2.source with
  | none => simp [overlapCheck, hp1, hp2, hpe, hs1] at h
  | some s1 =>
  cases hd1 : pr.1.2.destination with
  | none => simp [overlapCheck, hp1, hp2, hpe, hs1, hd1] at h
  | some d1 =>
  cases hs2 : pr.2.2.source with
  | none => simp [overlapCheck, hp1, hp2, hpe, hs1, hd1, hs2] at h
  | some s2 =>
  cases hd2 : pr.2.2.destination with
  | none => simp [overlapCheck, hp1, hp2, hpe, hs1, hd1, hs2, hd2] at h
  | some d2 =>
  cases hco : check_overlap s1 d1 s2 d2 with
  | error e => simp [overlapCheck, hp1, hp2, hpe, hs1, hd1, hs2, hd2, hco] at h
  | ok b =>
  cases b with
  | false => simp [overlapCheck, hp1, hp2, hpe, hs1, hd1, hs2, hd2, hco] at h
  | true =>
    simp only [overlapCheck, hp1, hp2, hpe, if_true, eq_self_iff_true, hs1, hd1,
      hs2, hd2, hco, Except.ok.injEq, Option.some.injEq] at h
    subst hpe
    exact ⟨h.symm, p1, s1, d1, s2, d2, rfl, rfl, rfl, rfl, rfl, rfl, hco⟩

/-! ### Helper lemmas about the per-rule loop -/

/-- The Step-1 shape check passes: all three required fields present. -/
abbrev fieldsOk (r : Rule) : Prop :=
  ¬(r.acl_number = none ∨ r.action = none ∨ r.protocol = none)

/-- The Step-2 permission check passes. -/
abbrev permOk (role : String) (r : Rule) : Prop :=
  ¬(role = roleReadOnly ∧ r.action = some actionDeny)

/-- The finding (if any) the loop iteration on rule `r` at index `i`
logs, given the `seen_acls` contents at that moment. -/
def stepFinding (role : String) (seen : List Int) (i : Nat) (r : Rule) :
    List Finding :=
  if r.acl_number = none ∨ r.action = none ∨ r.protocol = none then
    [Finding.missingField i]
  else if role = roleReadOnly ∧ r.action = some actionDeny then
    [Finding.permissionDenied i]
  else if r.acl_number.getD 0 ∈ seen then [Finding.duplicateAcl i] else []

/-- The `seen_acls` additions of the loop iteration on rule `r`. -/
def stepSeen (role : String) (seen : List Int) (r : Rule) : List Int :=
  if r.acl_number = none ∨ r.action = none ∨ r.protocol = none then []
  else if role = roleReadOnly ∧ r.action = some actionDeny then []
  else if r.acl_number.getD 0 ∈ seen then [] else [r.acl_number.getD 0]

/-- The rule index a per-rule finding is about (`none` for the two pair
findings, which the loop never produces). -/
def owner : Finding → Option Nat
  | Finding.missingField i => some i
  | Finding.permissionDenied i => some i
  | Finding.duplicateAcl i => some i
  | Finding.permitDenyConflict _ _ => none
  | Finding.overlapPair _ _ => none

theorem actionDeny_ne_actionPermit : actionDeny ≠ actionPermit := by decide

theorem actionPermit_ne_actionDeny : actionPermit ≠ actionDeny := by decide

theorem processRule_findings (role : String) (st : LoopState) (ir : Nat × Rule) :
    (processRule role st ir).findings =
      st.findings ++ stepFinding role st.seen ir.1 ir.2 := by
  simp only [processRule, stepFinding]
  split_ifs <;> simp

theorem processRule_seen (role : String) (st : LoopState) (ir : Nat × Rule) :
    (processRule role st ir).seen = st.seen ++ stepSeen role st.seen ir.2 := by
  simp only [processRule, stepSeen]
  split_ifs <;> simp

theorem processRule_valid (role : String) (st : LoopState) (ir : Nat × Rule) :
    (processRule role st ir).valid =
      (st.valid && (stepFinding role st.seen ir.1 ir.2).isEmpty) := by
  simp only [processRule, stepFinding]
  split_ifs <;> simp

theorem processRule_permits (role : String) (st : LoopState) (ir : Nat × Rule) :
    (processRule role st ir).permits = st.permits ++
      (if fieldsOk ir.2 ∧ permOk role ir.2 ∧ ir.2.action = some actionPermit
        then [ir] else []) := by
  simp only [processRule, fieldsOk, permOk]
  split_ifs <;> simp_all [actionDeny_ne_actionPermit, actionPermit_ne_actionDeny]

theorem processRule_denies (role : String) (st : LoopState) (ir : Nat × Rule) :
    (processRule role st ir).denies = st.denies ++
      (if fieldsOk ir.2 ∧ permOk role ir.2 ∧ ir.2.action = some actionDeny
        then [ir] else []) := by
  simp only [processRule, fieldsOk, permOk]
  split_ifs <;> simp_all [actionDeny_ne_actionPermit, actionPermit_ne_actionDeny]

theorem stepFinding_owner (role : String) (seen : List Int) (i : Nat) (r : Rule)
    (fd : Finding) (h : fd ∈ stepFinding role seen i r) : owner fd = some i := by
  unfold stepFinding at h
  split_ifs at h <;> simp_all [owner]

theorem foldl_findings_mono (role : String) (xs : List (Nat × Rule))
    (fd : Finding) :
    ∀ st : LoopState, fd ∈ st.findings →
      fd ∈ (xs.foldl (processRule role) st).findings := by
  induction xs with
  | nil => exact fun st h => h
  | cons x xs ih =>
    intro st h
    rw [List.foldl_cons]
    exact ih _ (by rw [processRule_findings]; exact List.mem_append_left _ h)

theorem foldl_count_of_ne (role : String) (xs : List (Nat × Rule))
    (fd : Finding) (n : Nat) (hown : owner fd = some n) :
    ∀ st : LoopState, (∀ p ∈ xs, p.1 ≠ n) →
      ((xs.foldl (processRule role) st).findings).count fd = st.findings.count fd := by
  induction xs with
  | nil => exact fun st _ => rfl
  | cons x xs ih =>
    intro st hxs
    rw [List.foldl_cons, ih _ (fun p hp => hxs p (List.mem_cons_of_mem _ hp))]
    rw [processRule_findings, List.count_append]
    have hz : List.count fd (stepFinding role st.seen x.1 x.2) = 0 := by
      refine List.count_eq_zero.mpr (fun hmem => ?_)
      have hx1 := stepFinding_owner role st.seen x.1 x.2 fd hmem
      rw [hown] at hx1
      exact hxs x (List.mem_cons_self _ _) (Option.some_inj.mp hx1).symm
    rw [hz]
    rfl

theorem foldl_seen_mono (role : String) (xs : List (Nat × Rule)) (a : Int) :
    ∀ st : LoopState, a ∈ st.seen →
      a ∈ (xs.foldl (processRule role) st).seen := by
  induction xs with
  | nil => exact fun st h => h
  | cons x xs ih =>
    intro st h
    rw [List.foldl_cons]
    exact ih _ (by rw [processRule_seen]; exact List.mem_append_left _ h)

theorem stepSeen_mem (role : String) (seen : List Int) (r : Rule) (a : Int)
    (h : a ∈ stepSeen role seen r) :
    fieldsOk r ∧ permOk role r ∧ r.acl_number = some a := by
  unfold stepSeen at h
  by_cases h1 : r.acl_number = none ∨ r.action = none ∨ r.protocol = none
  · rw [if_pos h1] at h; cases h
  · rw [if_neg h1] at h
    by_cases h2 : role = roleReadOnly ∧ r.action = some actionDeny
    · rw [if_pos h2] at h; cases h
    · rw [if_neg h2] at h
      by_cases h3 : r.acl_number.getD 0 ∈ seen
      · rw [if_pos h3] at h; cases h
      · rw [if_neg h3] at h
        have ha := List.mem_singleton.mp h
        refine ⟨h1, h2, ?_⟩
        cases hn : r.acl_number with
        | none => exact absurd (Or.inl hn) h1
        | some v =>
          rw [hn] at ha
          simp only [Option.getD_some] at ha
          rw [ha]

theorem foldl_seen_mem (role : String) (xs : List (Nat × Rule)) (a : Int) :
    ∀ st : LoopState, a ∈ (xs.foldl (processRule role) st).seen →
      a ∈ st.seen ∨
        ∃ p ∈ xs, fieldsOk p.2 ∧ permOk role p.2 ∧ p.2.acl_number = some a := by
  induction xs with
  | nil => exact fun st h => Or.inl h
  | cons x xs ih =>
    intro st h
    rw [List.foldl_cons] at h
    rcases ih _ h with h1 | ⟨p, hp, hcond⟩
    · rw [processRule_seen] at h1
      rcases List.mem_append.mp h1 with h2 | h2
      · exact Or.inl h2
      · exact Or.inr ⟨x, List.mem_cons_self _ _, stepSeen_mem role st.seen x.2 a h2⟩
    · exact Or.inr ⟨p, List.mem_cons_of_mem _ hp, hcond⟩

theorem foldl_seen_of_mem (role : String) (xs : List (Nat × Rule))
    (p : Nat × Rule) (a : Int) (hf : fieldsOk p.2)
    (hperm : permOk role p.2) (ha : p.2.acl_number = some a) :
    ∀ st : LoopState, p ∈ xs →
      a ∈ (xs.foldl (processRule role) st).seen := by
  induction xs with
  | nil => intro st hp; cases hp
  | cons x xs ih =>
    intro st hp
    rw [List.foldl_cons]
    rcases List.mem_cons.mp hp with rfl | hp'
    · apply foldl_seen_mono
      rw [processRule_seen]
      by_cases hin : p.2.acl_number.getD 0 ∈ st.seen
      · apply List.mem_append_left
        rw [ha] at hin
        simpa using hin
      · apply List.mem_append_right
        unfold stepSeen
        rw [if_neg hf, if_neg hperm, if_neg hin, ha]
        simp
    · exact ih _ hp'

theorem foldl_valid_false (role : String) (xs : List (Nat × Rule)) :
    ∀ st : LoopState, st.valid = false →
      (xs.foldl (processRule role) st).valid = false := by
  induction xs with
  | nil => exact fun st h => h
  | cons x xs ih =>
    intro st h
    rw [List.foldl_cons]
    exact ih _ (by rw [processRule_valid, h]; rfl)

theorem foldl_permits_mem (role : String) (xs : List (Nat × Rule))
    (q : Nat × Rule) :
    ∀ st : LoopState, q ∈ (xs.foldl (processRule role) st).permits →
      q ∈ st.permits ∨
        (q ∈ xs ∧ fieldsOk q.2 ∧ permOk role q.2 ∧ q.2.action = some actionPermit) := by
  induction xs with
  | nil => exact fun st h => Or.inl h
  | cons x xs ih =>
    intro st h
    rw [List.foldl_cons] at h
    rcases ih _ h with h1 | ⟨hq, hrest⟩
    · rw [processRule_permits] at h1
      rcases List.mem_append.mp h1 with h2 | h2
      · exact Or.inl h2
      · by_cases hc : fieldsOk x.2 ∧ permOk role x.2 ∧ x.2.action = some actionPermit
        · rw [if_pos hc] at h2
          rcases List.mem_singleton.mp h2 with rfl
          exact Or.inr ⟨List.mem_cons_self _ _, hc⟩
        · rw [if_neg hc] at h2; cases h2
    · exact Or.inr ⟨List.mem_cons_of_mem _ hq, hrest⟩

theorem foldl_denies_mem (role : String) (xs : List (Nat × Rule))
    (q : Nat × Rule) :
    ∀ st : LoopState, q ∈ (xs.foldl (processRule role) st).denies →
      q ∈ st.denies ∨
        (q ∈ xs ∧ fieldsOk q.2 ∧ permOk role q.2 ∧ q.2.action = some actionDeny) := by
  induction xs with
  | nil => exact fun st h => Or.inl h
  | cons x xs ih =>
    intro st h
    rw [List.foldl_cons] at h
    rcases ih _ h with h1 | ⟨hq, hrest⟩
    · rw [processRule_denies] at h1
      rcases List.mem_append.mp h1 with h2 | h2
      · exact Or.inl h2
      · by_cases hc : fieldsOk x.2 ∧ permOk role x.2 ∧ x.2.action = some actionDeny
        · rw [if_pos hc] at h2
          rcases List.mem_singleton.mp h2 with rfl
          exact Or.inr ⟨List.mem_cons_self _ _, hc⟩
        · rw [if_neg hc] at h2; cases h2
    · exact Or.inr ⟨List.mem_cons_of_mem _ hq, hrest⟩

theorem foldl_clean (role : String) (xs : List (Nat × Rule)) :
    ∀ st : LoopState,
      (∀ p ∈ xs, fieldsOk p.2 ∧ permOk role p.2) →
      (xs.filterMap (fun p => p.2.acl_number)).Nodup →
      (∀ a ∈ xs.filterMap (fun p => p.2.acl_number), a ∉ st.seen) →
      (xs.foldl (processRule role) st).findings = st.findings ∧
        (xs.foldl (processRule role) st).valid = st.valid ∧
        (xs.foldl (processRule role) st).seen =
          st.seen ++ xs.filterMap (fun p => p.2.acl_number) := by
  induction xs with
  | nil => exact fun st _ _ _ => ⟨rfl, rfl, by simp⟩
  | cons x xs ih =>
    intro st hok hnodup hdisj
    obtain ⟨hf, hperm⟩ := hok x (List.mem_cons_self _ _)
    obtain ⟨a, ha⟩ : ∃ a, x.2.acl_number = some a := by
      cases hn : x.2.acl_number with
      | none => exact absurd (Or.inl hn) hf
      | some v => exact ⟨v, rfl⟩
    have hfc : (x :: xs).filterMap (fun p => p.2.acl_number) =
        a :: xs.filterMap (fun p => p.2.acl_number) := by
      simp [List.filterMap_cons, ha]
    rw [hfc] at hnodup hdisj
    have hanin : a ∉ xs.filterMap (fun p => p.2.acl_number) :=
      (List.nodup_cons.mp hnodup).1
    have hnin : ¬ x.2.acl_number.getD 0 ∈ st.seen := by
      rw [ha]
      simpa using hdisj a (List.mem_cons_self _ _)
    have hstep_empty : stepFinding role st.seen x.1 x.2 = [] := by
      unfold stepFinding
      rw [if_neg hf, if_neg hperm, if_neg hnin]
    have hstep_f : (processRule role st x).findings = st.findings := by
      rw [processRule_findings, hstep_empty, List.append_nil]
    have hstep_v : (processRule role st x).valid = st.valid := by
      rw [processRule_valid, hstep_empty]
      simp
    have hstep_s : (processRule role st x).seen = st.seen ++ [a] := by
      rw [processRule_seen]
      unfold stepSeen
      rw [if_neg hf, if_neg hperm, if_neg hnin, ha]
      rfl
    rw [List.foldl_cons]
    obtain ⟨ih_f, ih_v, ih_s⟩ := ih (processRule role st x)
      (fun p hp => hok p (List.mem_cons_of_mem _ hp))
      (List.nodup_cons.mp hnodup).2
      (fun b hb => by
        rw [hstep_s]
        intro hmem
        rcases List.mem_append.mp hmem with h2 | h2
        · exact hdisj b (List.mem_cons_of_mem _ hb) h2
        · rcases List.mem_singleton.mp h2 with rfl
          exact hanin hb)
    refine ⟨?_, ?_, ?_⟩
    · rw [ih_f, hstep_f]
    · rw [ih_v, hstep_v]
    · rw [ih_s, hstep_s, hfc]
      simp

/-! ### Index bookkeeping: `enumF`, `allPairs`, `prodPairs` -/

theorem enumF_mem_lt {α : Type} (l : List α) :
    ∀ (k : Nat) (p : Nat × α), p ∈ enumF k l → k ≤ p.1 ∧ p.1 < k + l.length := by
  induction l with
  | nil => intro k p h; cases h
  | cons x xs ih =>
    intro k p h
    rw [enumF] at h
    rcases List.mem_cons.mp h with rfl | h'
    · simp
    · obtain ⟨h1, h2⟩ := ih (k + 1) p h'
      refine ⟨by omega, ?_⟩
      simp only [List.length_cons]
      omega

theorem enumF_get {α : Type} (l : List α) :
    ∀ (j k : Nat) (x : α), l.get? j = some x → (k + j, x) ∈ enumF k l := by
  induction l with
  | nil => intro j k x h; cases h
  | cons y ys ih =>
    intro j k x h
    cases j with
    | zero =>
      rw [List.get?] at h
      cases h
      rw [enumF]
      exact List.mem_cons_self _ _
    | succ j' =>
      rw [List.get?] at h
      rw [enumF]
      have hmem := ih j' (k + 1) x h
      have heq : k + (j' + 1) = (k + 1) + j' := by omega
      rw [heq]
      exact List.mem_cons_of_mem _ hmem

theorem enumF_mem_get {α : Type} (l : List α) :
    ∀ (k : Nat) (p : Nat × α), p ∈ enumF k l →
      ∃ j, p.1 = k + j ∧ l.get? j = some p.2 := by
  induction l with
  | nil => intro k p h; cases h
  | cons y ys ih =>
    intro k p h
    rw [enumF] at h
    rcases List.mem_cons.mp h with rfl | h'
    · exact ⟨0, by simp, by rw [List.get?]⟩
    · obtain ⟨j, hj1, hj2⟩ := ih (k + 1) p h'
      exact ⟨j + 1, by omega, by rw [List.get?]; exact hj2⟩

theorem enumF_append {α : Type} (l1 : List α) :
    ∀ (k : Nat) (l2 : List α),
      enumF k (l1 ++ l2) = enumF k l1 ++ enumF (k + l1.length) l2 := by
  induction l1 with
  | nil => intro k l2; simp [enumF]
  | cons x xs ih =>
    intro k l2
    rw [List.cons_append, enumF, enumF, ih (k + 1) l2, List.cons_append]
    have heq : (k + 1) + xs.length = k + (x :: xs).length := by
      simp only [List.length_cons]
      omega
    rw [heq]

theorem allPairs_enumF_mem {α : Type} (l : List α) :
    ∀ (k : Nat) (pq : (Nat × α) × (Nat × α)), pq ∈ allPairs (enumF k l) →
      pq.1 ∈ enumF k l ∧ pq.2 ∈ enumF k l ∧ pq.1.1 < pq.2.1 := by
  induction l with
  | nil => intro k pq h; cases h
  | cons y ys ih =>
    intro k pq h
    rw [enumF, allPairs] at h
    rcases List.mem_append.mp h with h1 | h1
    · obtain ⟨q, hq, hpq⟩ := List.mem_map.mp h1
      cases hpq
      refine ⟨List.mem_cons_self _ _, List.mem_cons_of_mem _ hq, ?_⟩
      have := enumF_mem_lt ys (k + 1) q hq
      simp only []
      omega
    · obtain ⟨h1', h2', h3'⟩ := ih (k + 1) pq h1
      exact ⟨List.mem_cons_of_mem _ h1', List.mem_cons_of_mem _ h2', h3'⟩

theorem allPairs_enumF_of_lt {α : Type} (l : List α) :
    ∀ (k : Nat) (p q : Nat × α), p ∈ enumF k l → q ∈ enumF k l → p.1 < q.1 →
      (p, q) ∈ allPairs (enumF k l) := by
  induction l with
  | nil => intro k p q hp _ _; cases hp
  | cons y ys ih =>
    intro k p q hp hq hlt
    rw [enumF] at hp hq
    rw [enumF, allPairs]
    rcases List.mem_cons.mp hp with rfl | hp'
    · rcases List.mem_cons.mp hq with rfl | hq'
      · exact absurd hlt (lt_irrefl _)
      · exact List.mem_append_left _ (List.mem_map.mpr ⟨q, hq', rfl⟩)
    · rcases List.mem_cons.mp hq with rfl | hq'
      · have := enumF_mem_lt ys (k + 1) p hp'
        omega
      · exact List.mem_append_right _ (ih (k + 1) p q hp' hq' hlt)

theorem prodPairs_mem {α β : Type} (ys : List β) (xs : List α) (q : α × β)
    (h : q ∈ prodPairs xs ys) : q.1 ∈ xs ∧ q.2 ∈ ys := by
  induction xs with
  | nil => cases h
  | cons x xs ih =>
    rw [prodPairs] at h
    rcases List.mem_append.mp h with h1 | h1
    · obtain ⟨y, hy, hq⟩ := List.mem_map.mp h1
      cases hq
      exact ⟨List.mem_cons_self _ _, hy⟩
    · obtain ⟨h1', h2'⟩ := ih h1
      exact ⟨List.mem_cons_of_mem _ h1', h2'⟩

theorem get_split {α : Type} (l : List α) :
    ∀ (i : Nat) (x : α), l.get? i = some x →
      l = l.take i ++ x :: l.drop (i + 1) ∧ (l.take i).length = i := by
  induction l with
  | nil => intro i x h; cases h
  | cons y ys ih =>
    intro i x h
    cases i with
    | zero =>
      rw [List.get?] at h
      cases h
      exact ⟨by simp, by simp⟩
    | succ i' =>
      rw [List.get?] at h
      obtain ⟨h1, h2⟩ := ih i' x h
      constructor
      · rw [List.take_succ_cons, List.drop_succ_cons, List.cons_append]
        conv_lhs => rw [h1]
      · rw [List.take_succ_cons, List.length_cons, h2]

/-! ### Splitting the per-rule loop at one index -/

/-- The contents of `seen_acls` just before the loop iteration on rule
index `i`. -/
def seenBefore (role : String) (rules : List Rule) (i : Nat) : List Int :=
  ((enumF 0 (rules.take i)).foldl (processRule role) initState).seen

theorem loopState_split (role : String) (rules : List Rule) (i : Nat) (ri : Rule)
    (h : rules.get? i = some ri) :
    loopState role rules =
      (enumF (i + 1) (rules.drop (i + 1))).foldl (processRule role)
        (processRule role
          ((enumF 0 (rules.take i)).foldl (processRule role) initState) (i, ri)) := by
  unfold loopState
  conv_lhs => rw [(get_split rules i ri h).1]
  rw [enumF_append, List.foldl_append, (get_split rules i ri h).2]
  rw [show (0 : Nat) + i = i from by omega]
  rw [enumF, List.foldl_cons]

/-- The number of per-rule findings owned by index `i` that the whole
loop produces is exactly what the iteration on rule `i` produces. -/
theorem loopState_count (role : String) (rules : List Rule) (i : Nat) (ri : Rule)
    (hget : rules.get? i = some ri) (fd : Finding) (hown : owner fd = some i) :
    ((loopState role rules).findings).count fd =
      (stepFinding role (seenBefore role rules i) i ri).count fd := by
  rw [loopState_split role rules i ri hget]
  rw [foldl_count_of_ne role _ fd i hown _
    (fun p hp => by have := enumF_mem_lt _ _ p hp; omega)]
  rw [processRule_findings, List.count_append]
  rw [foldl_count_of_ne role _ fd i hown initState
    (fun p hp => by
      have h1 := enumF_mem_lt _ _ p hp
      have h2 := (get_split rules i ri hget).2
      omega)]
  simp [initState, seenBefore]

/-- If the loop iteration on rule `i` logs anything, the loop comes out
with `valid = False`. -/
theorem loopState_valid_false (role : String) (rules : List Rule) (i : Nat)
    (ri : Rule) (hget : rules.get? i = some ri)
    (hstep : stepFinding role (seenBefore role rules i) i ri ≠ []) :
    (loopState role rules).valid = false := by
  rw [loopState_split role rules i ri hget]
  apply foldl_valid_false
  rw [processRule_valid]
  unfold seenBefore at hstep
  have hie : (stepFinding role
      (((enumF 0 (rules.take i)).foldl (processRule role) initState).seen)
      i ri).isEmpty = false := by
    cases hs : stepFinding role
        (((enumF 0 (rules.take i)).foldl (processRule role) initState).seen) i ri with
    | nil => exact absurd hs hstep
    | cons a as => rfl
  rw [hie, Bool.and_false]

/-! ### From loop state to the final report -/

theorem validate_mem_of_loop (role : String) (rules : List Rule) (fd : Finding)
    (h : fd ∈ (loopState role rules).findings) :
    fd ∈ (validate_acl_rules role rules).1 := by
  have h4 : fd ∈ (conflictScan role rules).1 := runChecks_mem_mono _ _ _ _ h
  unfold validate_acl_rules
  cases hc : (conflictScan role rules).2 with
  | error e => exact h4
  | ok v => exact runChecks_mem_mono _ _ _ _ h4

theorem overlapCheck_ne_owned (mk : Nat → Nat → Finding)
    (hmk : ∀ i j, owner (mk i j) = none) (fd : Finding) (n : Nat)
    (hown : owner fd = some n) (x : (Nat × Rule) × (Nat × Rule)) (fd' : Finding)
    (h : overlapCheck mk x = Except.ok (some fd')) : fd' ≠ fd := by
  intro hc
  obtain ⟨heq, _⟩ := overlapCheck_ok_some mk x fd' h
  subst hc
  rw [heq, hmk] at hown
  cases hown

/-- The two pair scans never log a per-rule finding, so the count of any
per-rule finding in the final report equals its count after the loop. -/
theorem validate_count_of_owner (role : String) (rules : List Rule) (fd : Finding)
    (n : Nat) (hown : owner fd = some n) :
    (validate_acl_rules role rules).1.count fd =
      ((loopState role rules).findings).count fd := by
  have h4 : (conflictScan role rules).1.count fd =
      ((loopState role rules).findings).count fd :=
    runChecks_count _ _ _ fd
      (fun x _ fd' h => overlapCheck_ne_owned Finding.permitDenyConflict
        (fun i j => rfl) fd n hown x fd' h)
  unfold validate_acl_rules
  cases hc : (conflictScan role rules).2 with
  | error e => exact h4
  | ok v =>
    rw [runChecks_count _ _ _ fd
      (fun x _ fd' h => overlapCheck_ne_owned Finding.overlapPair
        (fun i j => rfl) fd n hown x fd' h)]
    exact h4

/-- Once the loop has set `valid = False`, the final verdict can never be
`True` (it is `False`, or an exception escapes). -/
theorem validate_ne_true (role : String) (rules : List Rule)
    (h : (loopState role rules).valid = false) :
    (validate_acl_rules role rules).2 ≠ Except.ok true := by
  intro hc
  cases h4 : (conflictScan role rules).2 with
  | error e =>
    have hval : validate_acl_rules role rules = conflictScan role rules := by
      unfold validate_acl_rules
      rw [h4]
    rw [hval, h4] at hc
    cases hc
  | ok v =>
    have hv : v = false :=
      runChecks_sticky (overlapCheck Finding.permitDenyConflict)
        (prodPairs (loopState role rules).permits (loopState role rules).denies)
        ((loopState role rules).findings, (loopState role rules).valid) v h4 h
    have hval : validate_acl_rules role rules =
        runChecks (overlapCheck Finding.overlapPair) (allPairs (enumF 0 rules))
          ((conflictScan role rules).1, v) := by
      unfold validate_acl_rules
      rw [h4]
    rw [hval] at hc
    have := runChecks_sticky _ _ _ true hc hv
    cases this

/-! ### Concrete test data -/

/-- Address text `10.0.0.0/24`. -/
def strNet24 : String := "10.0.0.0/24"

/-- Address text `10.0.0.0/25`. -/
def strNet25 : String := "10.0.0.0/25"

/-- Address text `10.1.0.0/24` (disjoint from `10.0.0.0/24`). -/
def strNetFar : String := "10.1.0.0/24"

/-- Single-address text `10.0.0.5` (inside `10.0.0.0/24`). -/
def strHost5 : String := "10.0.0.5"

/-- Single-address text `10.0.0.1`. -/
def strHost1 : String := "10.0.0.1"

/-- Single-address text `10.0.0.2`. -/
def strHost2 : String := "10.0.0.2"

/-- Address text `10.0.0.1/32`. -/
def strHost1_32 : String := "10.0.0.1/32"

/-- Address text `10.0.0.2/32`. -/
def strHost2_32 : String := "10.0.0.2/32"

/-- A destination address text. -/
def strDestA : String := "8.8.8.8"

/-- Another destination address text. -/
def strDestB : String := "9.9.9.9"

/-- A third destination address text. -/
def strDestC : String := "7.7.7.7"

/-- The protocol token used in the examples. -/
def strTcp : String := "tcp"

/-! ### C1 -/

/-- Well-typed permit rule whose source is a plain (slash-free) address. -/
def ruleC1a : Rule :=
  { acl_number := some 1, action := some actionPermit, protocol := some strTcp,
    source := some strHost1, destination := some strDestA, port := none }

/-- Second well-typed permit rule with a plain address source. -/
def ruleC1b : Rule :=
  { acl_number := some 2, action := some actionPermit, protocol := some strTcp,
    source := some strHost2, destination := some strDestB, port := none }

/-- C1: the spec claims `validate` is total on well-typed input and that
malformed address text only degrades one comparison.  The code violates
the totality half: on two fully-populated rules whose sources are plain
single addresses (well-typed per the data model), the pairwise scan calls
`net1.overlaps` on an `IPv4Address`, and the resulting `AttributeError`
is not caught (`check_overlap` catches only `ValueError`), so
`validate_acl_rules` raises instead of returning a verdict. -/
theorem C1_validate_raises_on_plain_addresses :
    validate_acl_rules roleReadWrite [ruleC1a, ruleC1b] =
      ([], Except.error PyErr.attributeError) := by decide

/-! ### C2 -/

/-- C2: the spec claims the overlap primitive reports that a single
address overlaps a CIDR range containing it, and that two equal single
addresses overlap.  In the code all three single-address cases raise
instead of reporting: range-vs-address raises `TypeError`,
address-vs-range and address-vs-address raise `AttributeError`
(`IPv4Address` has no `overlaps` method).  `10.0.0.5` is inside
`10.0.0.0/24`, the spec's own worked example. -/
theorem C2_overlap_raises_on_single_addresses :
    check_overlap strNet24 strDestA strHost5 strDestB =
        Except.error PyErr.typeError ∧
      check_overlap strHost5 strDestB strNet24 strDestA =
        Except.error PyErr.attributeError ∧
      check_overlap strHost1 strDestA strHost1 strDestB =
        Except.error PyErr.attributeError := by
  refine ⟨by decide, by decide, by decide⟩

/-! ### C3 -/

/-- C3: the two destination arguments of `check_overlap` are accepted but
have no influence whatsoever on the result: two calls agreeing on the two
source arguments agree on the result for arbitrary destinations. -/
theorem C3_destinations_have_no_influence
    (s1 s2 d1 d2 d1' d2' : String) :
    check_overlap s1 d1 s2 d2 = check_overlap s1 d1' s2 d2' := rfl

/-! ### C6 -/

/-- Rule with the `protocol` key absent (its other fields present). -/
def ruleC6a : Rule :=
  { acl_number := some 1, action := some actionPermit, protocol := none,
    source := some strNet24, destination := some strDestA, port := none }

/-- Fully-populated companion rule for the C6 failing input. -/
def ruleC6b : Rule :=
  { acl_number := some 2, action := some actionPermit, protocol := some strTcp,
    source := some strNetFar, destination := some strDestB, port := none }

/-- C6: the spec claims a rule missing `protocol` never triggers a pair
finding and that `validate` still completes with a `missing-field`
finding.  The code does exclude such a rule from the conflict buckets and
does log `missing-field`, but the Step-5 pairwise scan iterates over the
raw rule list and evaluates `rules[i]['protocol']` unguarded, so with any
second rule present the scan raises `KeyError` and `validate` never
completes. -/
theorem C6_missing_protocol_raises_keyerror :
    validate_acl_rules roleReadWrite [ruleC6a, ruleC6b] =
      ([Finding.missingField 0], Except.error PyErr.keyError) := by decide

/-! ### C9 -/

/-- C9: whenever validation returns the verdict `False`, `configure_acls`
returns immediately: no backup, no connection, no rendering, no commands
— the effect trace is empty, for real runs and dry runs alike. -/
theorem C9_applier_gated (role : String) (rules : List Rule) (dry_run : Bool)
    (h : (validate_acl_rules role rules).2 = Except.ok false) :
    configure_acls role rules dry_run = ([], Except.ok ()) := by
  unfold configure_acls
  rw [h]

/-- Deny rule used to exercise the C9 gate under the read-only role. -/
def ruleC9deny : Rule :=
  { acl_number := some 1, action := some actionDeny, protocol := some strTcp,
    source := some strNet24, destination := some strDestA, port := none }

theorem C9_applier_gated_witness :
    configure_acls roleReadOnly [ruleC9deny] false = ([], Except.ok ()) :=
  C9_applier_gated roleReadOnly [ruleC9deny] false (by decide)

/-! ### C10 -/

/-- C10: on two values that both parse as CIDR ranges (the only case in
which `net1.overlaps(net2)` returns at all), `check_overlap` is
symmetric in the two rules, whatever the destination arguments. -/
theorem C10_overlap_symmetric_on_cidr (a b d1 d2 : String)
    (n1 p1 n2 p2 : Nat)
    (ha : parseValue a = some (IPValue.net n1 p1))
    (hb : parseValue b = some (IPValue.net n2 p2)) :
    check_overlap a d1 b d2 = check_overlap b d2 a d1 := by
  unfold check_overlap
  rw [ha, hb]
  show Except.ok (netOverlaps n1 p1 n2 p2) = Except.ok (netOverlaps n2 p2 n1 p1)
  rw [netOverlaps_symm]

theorem C10_overlap_symmetric_on_cidr_witness :
    check_overlap strNet24 strDestA strNet25 strDestB =
      check_overlap strNet25 strDestB strNet24 strDestA :=
  C10_overlap_symmetric_on_cidr strNet24 strNet25 strDestA strDestB
    167772160 24 167772160 25 (by decide) (by decide)

/-! ### C4 -/

/-- The empty string (used as the irrelevant `getD` default when reading
fields already known to be present). -/
def strEmpty : String := ""

theorem opt_exists {α : Type} (o : Option α) (h : o ≠ none) :
    ∃ x, o = some x := by
  cases ho : o with
  | none => exact absurd ho h
  | some v => exact ⟨v, rfl⟩

theorem enumF_filterMap_snd {α β : Type} (f : α → Option β) (l : List α) :
    ∀ k : Nat, (enumF k l).filterMap (fun p => f p.2) = l.filterMap f := by
  induction l with
  | nil => intro k; rfl
  | cons x xs ih =>
    intro k
    rw [enumF, List.filterMap_cons, List.filterMap_cons]
    cases hf : f x <;> simp [hf, ih (k + 1)]

theorem overlapCheck_none_of_ne_protocol (mk : Nat → Nat → Finding)
    (pr : (Nat × Rule) × (Nat × Rule)) (p1 p2 : String)
    (hp1 : pr.1.2.protocol = some p1) (hp2 : pr.2.2.protocol = some p2)
    (hne : p1 ≠ p2) : overlapCheck mk pr = Except.ok none := by
  unfold overlapCheck
  rw [hp1, hp2]
  simp [hne]

theorem overlapCheck_none_of_ok_false (mk : Nat → Nat → Finding)
    (pr : (Nat × Rule) × (Nat × Rule)) (p s1 d1 s2 d2 : String)
    (hp1 : pr.1.2.protocol = some p) (hp2 : pr.2.2.protocol = some p)
    (hs1 : pr.1.2.source = some s1) (hd1 : pr.1.2.destination = some d1)
    (hs2 : pr.2.2.source = some s2) (hd2 : pr.2.2.destination = some d2)
    (hfalse : check_overlap s1 d1 s2 d2 = Except.ok false) :
    overlapCheck mk pr = Except.ok none := by
  unfold overlapCheck
  rw [hp1, hp2]
  simp [hs1, hd1, hs2, hd2, hfalse]

theorem overlapCheck_some_of_ok_true (mk : Nat → Nat → Finding)
    (pr : (Nat × Rule) × (Nat × Rule)) (p s1 d1 s2 d2 : String)
    (hp1 : pr.1.2.protocol = some p) (hp2 : pr.2.2.protocol = some p)
    (hs1 : pr.1.2.source = some s1) (hd1 : pr.1.2.destination = some d1)
    (hs2 : pr.2.2.source = some s2) (hd2 : pr.2.2.destination = some d2)
    (htrue : check_overlap s1 d1 s2 d2 = Except.ok true) :
    overlapCheck mk pr = Except.ok (some (mk pr.1.1 pr.2.1)) := by
  unfold overlapCheck
  rw [hp1, hp2]
  simp [hs1, hd1, hs2, hd2, htrue]

/-- Fully-populated deny rule for the C4 counterexample. -/
def ruleC4deny : Rule :=
  { acl_number := some 1, action := some actionDeny, protocol := some strTcp,
    source := some strHost1_32, destination := some strDestA, port := none }

/-- C4 counterexample: a single fully-populated deny rule with a unique
`acl_number` satisfies every hypothesis of the claim (the no-overlapping-
pair condition is vacuous: there is no pair), yet under the role
`read-only` the verdict is `False` with a `permission-denied` finding,
not `True` with no findings — the claim's "for either role" fails. -/
theorem C4_counterexample :
    (∀ r ∈ [ruleC4deny], r.acl_number ≠ none ∧ r.action ≠ none ∧
        r.protocol ≠ none ∧ r.source ≠ none ∧ r.destination ≠ none) ∧
      ([ruleC4deny].filterMap Rule.acl_number).Nodup ∧
      allPairs (enumF 0 [ruleC4deny]) = [] ∧
      validate_acl_rules roleReadOnly [ruleC4deny] =
        ([Finding.permissionDenied 0], Except.ok false) := by
  refine ⟨by decide, by decide, by decide, by decide⟩

/-- C4 (amended): a rule set with all required and address fields
present, pairwise-distinct `acl_number`s, and every same-protocol index
pair comparing as non-overlapping under the code's own primitive
(`check_overlap` returns `False`, which also rules out the raising
cases), validates to verdict `True` with no findings — provided the role
is `read-write`, or no rule is a deny rule (a read-only role turns every
deny rule into a `permission-denied` finding, which the original claim's
"for either role" overlooked). -/
theorem C4_amended (role : String) (rules : List Rule)
    (hfields : ∀ r ∈ rules, r.acl_number ≠ none ∧ r.action ≠ none ∧
      r.protocol ≠ none ∧ r.source ≠ none ∧ r.destination ≠ none)
    (hnodup : (rules.filterMap Rule.acl_number).Nodup)
    (hrole : role = roleReadWrite ∨ ∀ r ∈ rules, r.action ≠ some actionDeny)
    (hdisjoint : ∀ pq ∈ allPairs (enumF 0 rules),
      pq.1.2.protocol = pq.2.2.protocol →
      check_overlap (pq.1.2.source.getD strEmpty) (pq.1.2.destination.getD strEmpty)
        (pq.2.2.source.getD strEmpty) (pq.2.2.destination.getD strEmpty) =
        Except.ok false) :
    validate_acl_rules role rules = ([], Except.ok true) := by
  have hmem_rule : ∀ p : Nat × Rule, p ∈ enumF 0 rules → p.2 ∈ rules := by
    intro p hp
    obtain ⟨j, _, hj⟩ := enumF_mem_get rules 0 p hp
    exact List.get?_mem hj
  have hok : ∀ p ∈ enumF 0 rules, fieldsOk p.2 ∧ permOk role p.2 := by
    intro p hp
    obtain ⟨h1, h2, h3, _, _⟩ := hfields p.2 (hmem_rule p hp)
    constructor
    · intro hcon
      rcases hcon with h | h | h
      exacts [h1 h, h2 h, h3 h]
    · intro hcon
      rcases hrole with hrw | hnodeny
      · rw [hrw] at hcon
        exact absurd hcon.1 (by decide)
      · exact hnodeny p.2 (hmem_rule p hp) hcon.2
  obtain ⟨hlf, hlv, _⟩ := foldl_clean role (enumF 0 rules) initState hok
    (by rw [enumF_filterMap_snd Rule.acl_number rules 0]; exact hnodup)
    (by intro a _; simp [initState])
  have hloopf : (loopState role rules).findings = [] := by
    unfold loopState
    rw [hlf]
    rfl
  have hloopv : (loopState role rules).valid = true := by
    unfold loopState
    rw [hlv]
    rfl
  -- any bucketed rule really is a rule of the input, with its index
  have hperm_mem : ∀ q ∈ (loopState role rules).permits,
      q ∈ enumF 0 rules ∧ q.2.action = some actionPermit := by
    intro q hq
    rcases foldl_permits_mem role (enumF 0 rules) q initState hq with h | h
    · exact absurd h (List.not_mem_nil q)
    · exact ⟨h.1, h.2.2.2⟩
  have hdeny_mem : ∀ q ∈ (loopState role rules).denies,
      q ∈ enumF 0 rules ∧ q.2.action = some actionDeny := by
    intro q hq
    rcases foldl_denies_mem role (enumF 0 rules) q initState hq with h | h
    · exact absurd h (List.not_mem_nil q)
    · exact ⟨h.1, h.2.2.2⟩
  -- the disjointness hypothesis, read off for an arbitrary ordered pair
  have hfalse_of_lt : ∀ x y : Nat × Rule, x ∈ enumF 0 rules → y ∈ enumF 0 rules →
      x.1 < y.1 → ∀ p sx dx sy dy : String,
      x.2.protocol = some p → y.2.protocol = some p →
      x.2.source = some sx → x.2.destination = some dx →
      y.2.source = some sy → y.2.destination = some dy →
      check_overlap sx dx sy dy = Except.ok false := by
    intro x y hx hy hlt p sx dx sy dy hpx hpy hsx hdx hsy hdy
    have hpair := allPairs_enumF_of_lt rules 0 x y hx hy hlt
    have hd := hdisjoint (x, y) hpair (by rw [hpx, hpy])
    rw [hsx, hdx, hsy, hdy] at hd
    simpa using hd
  have hfields' : ∀ p : Nat × Rule, p ∈ enumF 0 rules →
      ∃ pp ps pd, p.2.protocol = some pp ∧ p.2.source = some ps ∧
        p.2.destination = some pd := by
    intro p hp
    obtain ⟨_, _, h3, h4, h5⟩ := hfields p.2 (hmem_rule p hp)
    obtain ⟨pp, hpp⟩ := opt_exists _ h3
    obtain ⟨ps, hps⟩ := opt_exists _ h4
    obtain ⟨pd, hpd⟩ := opt_exists _ h5
    exact ⟨pp, ps, pd, hpp, hps, hpd⟩
  have hget_of_mem : ∀ p : Nat × Rule, p ∈ enumF 0 rules →
      rules.get? p.1 = some p.2 := by
    intro p hp
    obtain ⟨j, hj1, hj2⟩ := enumF_mem_get rules 0 p hp
    rw [Nat.zero_add] at hj1
    rw [hj1]
    exact hj2
  -- one generic pair comparison: both rules of the input, different
  -- indices, all fields present ⇒ the check reports nothing
  have hcheck : ∀ (mk : Nat → Nat → Finding) (x y : Nat × Rule),
      x ∈ enumF 0 rules → y ∈ enumF 0 rules → x.1 ≠ y.1 →
      overlapCheck mk (x, y) = Except.ok none := by
    intro mk x y hx hy hne
    obtain ⟨px, sx, dx, hpx, hsx, hdx⟩ := hfields' x hx
    obtain ⟨py, sy, dy, hpy, hsy, hdy⟩ := hfields' y hy
    by_cases hpe : px = py
    · subst hpe
      rcases Nat.lt_or_ge x.1 y.1 with hlt | hge
      · exact overlapCheck_none_of_ok_false mk (x, y) px sx dx sy dy hpx hpy
          hsx hdx hsy hdy
          (hfalse_of_lt x y hx hy hlt px sx dx sy dy hpx hpy hsx hdx hsy hdy)
      · have hlt : y.1 < x.1 := by omega
        have hrev := hfalse_of_lt y x hy hx hlt px sy dy sx dx hpy hpx hsy hdy hsx hdx
        exact overlapCheck_none_of_ok_false mk (x, y) px sx dx sy dy hpx hpy
          hsx hdx hsy hdy
          (check_overlap_ok_symm sy dy sx dx dx dy false hrev)
    · exact overlapCheck_none_of_ne_protocol mk (x, y) px py hpx hpy hpe
  have hconf : ∀ pq ∈ prodPairs (loopState role rules).permits
      (loopState role rules).denies,
      overlapCheck Finding.permitDenyConflict pq = Except.ok none := by
    intro pq hpq
    obtain ⟨hp_in, hd_in⟩ := prodPairs_mem _ _ pq hpq
    obtain ⟨hpe, hpa⟩ := hperm_mem pq.1 hp_in
    obtain ⟨hde, hda⟩ := hdeny_mem pq.2 hd_in
    have hne : pq.1.1 ≠ pq.2.1 := by
      intro heq
      have hg1 := hget_of_mem pq.1 hpe
      have hg2 := hget_of_mem pq.2 hde
      rw [heq, hg2] at hg1
      have : pq.2.2 = pq.1.2 := Option.some_inj.mp hg1
      rw [← this, hda] at hpa
      exact actionDeny_ne_actionPermit (Option.some_inj.mp hpa)
    have := hcheck Finding.permitDenyConflict pq.1 pq.2 hpe hde hne
    simpa using this
  have hpair : ∀ pq ∈ allPairs (enumF 0 rules),
      overlapCheck Finding.overlapPair pq = Except.ok none := by
    intro pq hpq
    obtain ⟨h1, h2, hlt⟩ := allPairs_enumF_mem rules 0 pq hpq
    have := hcheck Finding.overlapPair pq.1 pq.2 h1 h2 (by omega)
    simpa using this
  have hcs : conflictScan role rules = ([], Except.ok true) := by
    unfold conflictScan
    rw [runChecks_all_none _ _ _ hconf, hloopf, hloopv]
  have hval : validate_acl_rules role rules =
      runChecks (overlapCheck Finding.overlapPair) (allPairs (enumF 0 rules))
        ((conflictScan role rules).1, true) := by
    unfold validate_acl_rules
    rw [show (conflictScan role rules).2 = Except.ok true from by rw [hcs]]
  rw [hval, show (conflictScan role rules).1 = [] from by rw [hcs],
    runChecks_all_none _ _ _ hpair]

/-- First disjoint `/32` permit rule of the spec's `verdict true` example. -/
def ruleC4w1 : Rule :=
  { acl_number := some 1, action := some actionPermit, protocol := some strTcp,
    source := some strHost1_32, destination := some strDestA, port := none }

/-- Second disjoint `/32` permit rule of the spec's `verdict true` example. -/
def ruleC4w2 : Rule :=
  { acl_number := some 2, action := some actionPermit, protocol := some strTcp,
    source := some strHost2_32, destination := some strDestB, port := none }

theorem C4_amended_witness :
    validate_acl_rules roleReadWrite [ruleC4w1, ruleC4w2] = ([], Except.ok true) :=
  C4_amended roleReadWrite [ruleC4w1, ruleC4w2] (by decide) (by decide)
    (Or.inl rfl) (by decide)

/-! ### C5 -/

/-- First deny rule with `acl_number` 1 for the C5 counterexample. -/
def ruleC5d1 : Rule :=
  { acl_number := some 1, action := some actionDeny, protocol := some strTcp,
    source := some strNet24, destination := some strDestA, port := none }

/-- Second deny rule, same `acl_number` 1, disjoint source. -/
def ruleC5d2 : Rule :=
  { acl_number := some 1, action := some actionDeny, protocol := some strTcp,
    source := some strNetFar, destination := some strDestB, port := none }

/-- C5 counterexample: two rules share `acl_number` 1 with all required
fields present, yet under the role `read-only` no `duplicate-acl` finding
is produced at all: the permission check `continue`s past both deny rules
before the duplicate bookkeeping runs.  The claim's "any role" fails. -/
theorem C5_counterexample :
    validate_acl_rules roleReadOnly [ruleC5d1, ruleC5d2] =
        ([Finding.permissionDenied 0, Finding.permissionDenied 1],
          Except.ok false) ∧
      Finding.duplicateAcl 1 ∉
        (validate_acl_rules roleReadOnly [ruleC5d1, ruleC5d2]).1 := by
  refine ⟨by decide, by decide⟩

/-- C5 (amended): if two rules at indices `i < j` share an `acl_number`,
both have the required fields, and neither is skipped by the read-only
permission check (the original claim's "any role" overlooked that a
skipped deny rule is also skipped by the duplicate bookkeeping), and `i`
is the first index carrying that number, then the rule at `j` produces
exactly one `duplicate-acl` finding, the rule at `i` produces none, and
the verdict cannot be `True`. -/
theorem C5_amended (role : String) (rules : List Rule) (i j : Nat)
    (ri rj : Rule) (a : Int) (hij : i < j)
    (hgi : rules.get? i = some ri) (hgj : rules.get? j = some rj)
    (hfi : fieldsOk ri) (hfj : fieldsOk rj)
    (hpermi : permOk role ri) (hpermj : permOk role rj)
    (hai : ri.acl_number = some a) (haj : rj.acl_number = some a)
    (hfirst : ∀ k rk, k < i → rules.get? k = some rk → rk.acl_number ≠ some a) :
    (validate_acl_rules role rules).1.count (Finding.duplicateAcl j) = 1 ∧
      Finding.duplicateAcl i ∉ (validate_acl_rules role rules).1 ∧
      (validate_acl_rules role rules).2 ≠ Except.ok true := by
  have hseenj : a ∈ seenBefore role rules j := by
    unfold seenBefore
    apply foldl_seen_of_mem role _ (i, ri) a hfi hpermi hai
    have hgt : (rules.take j).get? i = some ri := by
      rw [List.get?_take hij]
      exact hgi
    have h0 := enumF_get (rules.take j) i 0 ri hgt
    simpa using h0
  have hstepj : stepFinding role (seenBefore role rules j) j rj =
      [Finding.duplicateAcl j] := by
    unfold stepFinding
    rw [if_neg hfj, if_neg hpermj,
      if_pos (by rw [haj]; simpa using hseenj)]
  have hnotseen : ¬ ri.acl_number.getD 0 ∈ seenBefore role rules i := by
    rw [hai]
    simp only [Option.getD_some]
    intro hmem
    rcases foldl_seen_mem role (enumF 0 (rules.take i)) a initState hmem with
      h0 | ⟨p, hp, hpf, hpp, hpa⟩
    · simp [initState] at h0
    · obtain ⟨jp, hjp1, hjp2⟩ := enumF_mem_get (rules.take i) 0 p hp
      have hlen : jp < (rules.take i).length := (List.get?_eq_some.mp hjp2).1
      have hjpi : jp < i := by
        have := List.length_take i rules
        omega
      have hruleget : rules.get? jp = some p.2 := by
        rw [← List.get?_take hjpi]
        exact hjp2
      exact hfirst jp p.2 hjpi hruleget hpa
  have hstepi : stepFinding role (seenBefore role rules i) i ri = [] := by
    unfold stepFinding
    rw [if_neg hfi, if_neg hpermi, if_neg hnotseen]
  have hcount1 : (validate_acl_rules role rules).1.count (Finding.duplicateAcl j) = 1 := by
    rw [validate_count_of_owner role rules (Finding.duplicateAcl j) j rfl,
      loopState_count role rules j rj hgj (Finding.duplicateAcl j) rfl, hstepj]
    simp
  have hcount0 : (validate_acl_rules role rules).1.count (Finding.duplicateAcl i) = 0 := by
    rw [validate_count_of_owner role rules (Finding.duplicateAcl i) i rfl,
      loopState_count role rules i ri hgi (Finding.duplicateAcl i) rfl, hstepi]
    rfl
  refine ⟨hcount1, List.count_eq_zero.mp hcount0, ?_⟩
  apply validate_ne_true
  apply loopState_valid_false role rules j rj hgj
  rw [hstepj]
  simp

/-- First permit rule with `acl_number` 1 for the C5 witness. -/
def ruleC5w1 : Rule :=
  { acl_number := some 1, action := some actionPermit, protocol := some strTcp,
    source := some strNet24, destination := some strDestA, port := none }

/-- Second permit rule, same `acl_number` 1, disjoint source. -/
def ruleC5w2 : Rule :=
  { acl_number := some 1, action := some actionPermit, protocol := some strTcp,
    source := some strNetFar, destination := some strDestB, port := none }

theorem C5_amended_witness :
    (validate_acl_rules roleReadWrite [ruleC5w1, ruleC5w2]).1.count
        (Finding.duplicateAcl 1) = 1 ∧
      Finding.duplicateAcl 0 ∉
        (validate_acl_rules roleReadWrite [ruleC5w1, ruleC5w2]).1 ∧
      (validate_acl_rules roleReadWrite [ruleC5w1, ruleC5w2]).2 ≠
        Except.ok true :=
  C5_amended roleReadWrite [ruleC5w1, ruleC5w2] 0 1 ruleC5w1 ruleC5w2 1
    (by decide) rfl rfl (by decide) (by decide) (by decide) (by decide) rfl rfl
    (fun k rk hk _ => absurd hk (Nat.not_lt_zero k))

/-! ### C7 -/

theorem count_pd_stepFinding_zero (role : String) (seen : List Int) (i : Nat)
    (r : Rule) (h : ¬(role = roleReadOnly ∧ r.action = some actionDeny)) :
    (stepFinding role seen i r).count (Finding.permissionDenied i) = 0 := by
  unfold stepFinding
  by_cases h1 : r.acl_number = none ∨ r.action = none ∨ r.protocol = none
  · rw [if_pos h1]
    exact List.count_eq_zero.mpr (by simp)
  · rw [if_neg h1, if_neg h]
    by_cases h3 : r.acl_number.getD 0 ∈ seen
    · rw [if_pos h3]
      exact List.count_eq_zero.mpr (by simp)
    · rw [if_neg h3]
      rfl

/-- C7: under the role `read-only`, every rule with the required fields
present whose action is `deny` yields a `permission-denied` finding and
keeps the verdict away from `True`; a rule whose action is `permit` never
yields one under any role; and under the role `read-write` no rule ever
yields one. -/
theorem C7_permission_policy (role : String) (rules : List Rule) :
    (∀ i ri, rules.get? i = some ri → role = roleReadOnly → fieldsOk ri →
      ri.action = some actionDeny →
      Finding.permissionDenied i ∈ (validate_acl_rules role rules).1 ∧
        (validate_acl_rules role rules).2 ≠ Except.ok true) ∧
      (∀ i ri, rules.get? i = some ri → ri.action = some actionPermit →
        Finding.permissionDenied i ∉ (validate_acl_rules role rules).1) ∧
      (role = roleReadWrite →
        ∀ n, Finding.permissionDenied n ∉ (validate_acl_rules role rules).1) := by
  refine ⟨?_, ?_, ?_⟩
  · intro i ri hget hro hf hdeny
    have hstep : stepFinding role (seenBefore role rules i) i ri =
        [Finding.permissionDenied i] := by
      unfold stepFinding
      rw [if_neg hf, if_pos ⟨hro, hdeny⟩]
    constructor
    · have hc : (validate_acl_rules role rules).1.count
          (Finding.permissionDenied i) = 1 := by
        rw [validate_count_of_owner role rules (Finding.permissionDenied i) i rfl,
          loopState_count role rules i ri hget (Finding.permissionDenied i) rfl,
          hstep]
        simp
      by_contra hmem
      have h0 := List.count_eq_zero.mpr hmem
      rw [hc] at h0
      cases h0
    · apply validate_ne_true
      apply loopState_valid_false role rules i ri hget
      rw [hstep]
      simp
  · intro i ri hget hpermit
    apply List.count_eq_zero.mp
    rw [validate_count_of_owner role rules (Finding.permissionDenied i) i rfl,
      loopState_count role rules i ri hget (Finding.permissionDenied i) rfl]
    apply count_pd_stepFinding_zero
    intro hc
    rw [hpermit] at hc
    exact actionPermit_ne_actionDeny (Option.some_inj.mp hc.2)
  · intro hrw n
    apply List.count_eq_zero.mp
    by_cases hn : n < rules.length
    · obtain ⟨rn, hrn⟩ : ∃ rn, rules.get? n = some rn := by
        cases hg : rules.get? n with
        | none => rw [List.get?_eq_none] at hg; omega
        | some v => exact ⟨v, rfl⟩
      rw [validate_count_of_owner role rules (Finding.permissionDenied n) n rfl,
        loopState_count role rules n rn hrn (Finding.permissionDenied n) rfl]
      apply count_pd_stepFinding_zero
      intro hc
      rw [hrw] at hc
      exact absurd hc.1 (by decide)
    · rw [validate_count_of_owner role rules (Finding.permissionDenied n) n rfl]
      unfold loopState
      rw [foldl_count_of_ne role (enumF 0 rules) (Finding.permissionDenied n) n rfl
        initState (fun p hp => by have := enumF_mem_lt rules 0 p hp; omega)]
      rfl

/-- Deny rule exercising C7's read-only branch. -/
def ruleC7deny : Rule :=
  { acl_number := some 7, action := some actionDeny, protocol := some strTcp,
    source := some strNet24, destination := some strDestA, port := none }

theorem C7_permission_policy_witness :
    Finding.permissionDenied 0 ∈
        (validate_acl_rules roleReadOnly [ruleC7deny]).1 ∧
      (validate_acl_rules roleReadOnly [ruleC7deny]).2 ≠ Except.ok true :=
  (C7_permission_policy roleReadOnly [ruleC7deny]).1 0 ruleC7deny rfl rfl
    (by decide) rfl

/-! ### C8 -/

theorem enumF_zero_get {α : Type} (l : List α) (p : Nat × α)
    (hp : p ∈ enumF 0 l) : l.get? p.1 = some p.2 := by
  obtain ⟨j, hj1, hj2⟩ := enumF_mem_get l 0 p hp
  rw [Nat.zero_add] at hj1
  rw [hj1]
  exact hj2

theorem loopState_permits_mem (role : String) (rules : List Rule)
    (q : Nat × Rule) (hq : q ∈ (loopState role rules).permits) :
    q ∈ enumF 0 rules ∧ q.2.action = some actionPermit := by
  rcases foldl_permits_mem role (enumF 0 rules) q initState hq with h | h
  · exact absurd h (List.not_mem_nil q)
  · exact ⟨h.1, h.2.2.2⟩

theorem loopState_denies_mem (role : String) (rules : List Rule)
    (q : Nat × Rule) (hq : q ∈ (loopState role rules).denies) :
    q ∈ enumF 0 rules ∧ q.2.action = some actionDeny := by
  rcases foldl_denies_mem role (enumF 0 rules) q initState hq with h | h
  · exact absurd h (List.not_mem_nil q)
  · exact ⟨h.1, h.2.2.2⟩

theorem foldl_findings_owner (role : String) (xs : List (Nat × Rule)) :
    ∀ st : LoopState, (∀ fd ∈ st.findings, ∃ n, owner fd = some n) →
      ∀ fd ∈ (xs.foldl (processRule role) st).findings, ∃ n, owner fd = some n := by
  induction xs with
  | nil => exact fun st h => h
  | cons x xs ih =>
    intro st h
    apply ih
    intro fd hfd
    rw [processRule_findings] at hfd
    rcases List.mem_append.mp hfd with h1 | h1
    · exact h fd h1
    · exact ⟨x.1, stepFinding_owner role st.seen x.1 x.2 fd h1⟩

/-- C8 (amended): provided the call returns a verdict at all (no
comparison raises — the part of the claim the code violates), the scans
are exhaustive: every same-protocol index pair that the overlap primitive
reports as overlapping appears as an `overlap` finding regardless of any
other findings, and every pair reported by the Step-4 permit/deny
conflict scan is re-reported by the Step-5 overlap scan. -/
theorem C8_amended (role : String) (rules : List Rule) (b : Bool)
    (hok : (validate_acl_rules role rules).2 = Except.ok b) :
    (∀ i j ri rj p s1 d1 s2 d2, i < j →
      rules.get? i = some ri → rules.get? j = some rj →
      ri.protocol = some p → rj.protocol = some p →
      ri.source = some s1 → ri.destination = some d1 →
      rj.source = some s2 → rj.destination = some d2 →
      check_overlap s1 d1 s2 d2 = Except.ok true →
      Finding.overlapPair i j ∈ (validate_acl_rules role rules).1) ∧
      (∀ i j, Finding.permitDenyConflict i j ∈ (validate_acl_rules role rules).1 →
        Finding.overlapPair (min i j) (max i j) ∈
          (validate_acl_rules role rules).1) := by
  cases h4 : (conflictScan role rules).2 with
  | error e =>
    exfalso
    have hval : validate_acl_rules role rules = conflictScan role rules := by
      unfold validate_acl_rules
      rw [h4]
    rw [hval, h4] at hok
    cases hok
  | ok v =>
    have hval : validate_acl_rules role rules =
        runChecks (overlapCheck Finding.overlapPair) (allPairs (enumF 0 rules))
          ((conflictScan role rules).1, v) := by
      unfold validate_acl_rules
      rw [h4]
    have hA : ∀ (x y : Nat × Rule) (p s1 d1 s2 d2 : String), x.1 < y.1 →
        rules.get? x.1 = some x.2 → rules.get? y.1 = some y.2 →
        x.2.protocol = some p → y.2.protocol = some p →
        x.2.source = some s1 → x.2.destination = some d1 →
        y.2.source = some s2 → y.2.destination = some d2 →
        check_overlap s1 d1 s2 d2 = Except.ok true →
        Finding.overlapPair x.1 y.1 ∈ (validate_acl_rules role rules).1 := by
      intro x y p s1 d1 s2 d2 hlt hgx hgy hpx hpy hsx hdx hsy hdy htrue
      have hx : x ∈ enumF 0 rules := by
        have h0 := enumF_get rules x.1 0 x.2 hgx
        simpa using h0
      have hy : y ∈ enumF 0 rules := by
        have h0 := enumF_get rules y.1 0 y.2 hgy
        simpa using h0
      have hmem := allPairs_enumF_of_lt rules 0 x y hx hy hlt
      have hsome := overlapCheck_some_of_ok_true Finding.overlapPair (x, y) p
        s1 d1 s2 d2 hpx hpy hsx hdx hsy hdy htrue
      rw [hval]
      rw [hval] at hok
      exact runChecks_complete _ _ _ (x, y) _ b hok hmem hsome
    refine ⟨?_, ?_⟩
    · intro i j ri rj p s1 d1 s2 d2 hij hgi hgj hpi hpj hsi hdi hsj hdj htrue
      exact hA (i, ri) (j, rj) p s1 d1 s2 d2 hij hgi hgj hpi hpj hsi hdi hsj
        hdj htrue
    · intro i j hpdc
      rw [hval] at hpdc
      rcases runChecks_mem_cases _ _ _ _ hpdc with h1 | ⟨pq, _, hq⟩
      swap
      · obtain ⟨heq, _⟩ := overlapCheck_ok_some _ _ _ hq
        cases heq
      rcases runChecks_mem_cases _ _ _ _ h1 with h2 | ⟨pq, hpq, hq⟩
      · exfalso
        obtain ⟨n, hn⟩ := foldl_findings_owner role (enumF 0 rules) initState
          (fun fd hfd => absurd hfd (List.not_mem_nil fd)) _ h2
        cases hn
      · obtain ⟨heq, pp, s1, d1, s2, d2, hp1, hp2, hs1, hd1, hs2, hd2, htrue⟩ :=
          overlapCheck_ok_some _ _ _ hq
        injection heq with hi hj
        subst hi
        subst hj
        obtain ⟨hp_in, hd_in⟩ := prodPairs_mem _ _ pq hpq
        obtain ⟨hpe, hpa⟩ := loopState_permits_mem role rules pq.1 hp_in
        obtain ⟨hde, hda⟩ := loopState_denies_mem role rules pq.2 hd_in
        have hg1 := enumF_zero_get rules pq.1 hpe
        have hg2 := enumF_zero_get rules pq.2 hde
        have hne : pq.1.1 ≠ pq.2.1 := by
          intro heq2
          rw [heq2, hg2] at hg1
          have hrr : pq.2.2 = pq.1.2 := Option.some_inj.mp hg1
          rw [← hrr, hda] at hpa
          exact actionDeny_ne_actionPermit (Option.some_inj.mp hpa)
        rcases Nat.lt_or_ge pq.1.1 pq.2.1 with hlt | hge
        · rw [min_eq_left (le_of_lt hlt), max_eq_right (le_of_lt hlt)]
          exact hA pq.1 pq.2 pp s1 d1 s2 d2 hlt hg1 hg2 hp1 hp2 hs1 hd1 hs2
            hd2 htrue
        · have hlt : pq.2.1 < pq.1.1 := by omega
          rw [min_eq_right (le_of_lt hlt), max_eq_left (le_of_lt hlt)]
          exact hA pq.2 pq.1 pp s2 d2 s1 d1 hlt hg2 hg1 hp2 hp1 hs2 hd2 hs1
            hd1 (check_overlap_ok_symm s1 d1 s2 d2 d2 d1 true htrue)

/-- First permit rule (`10.0.0.0/24`) for the C8 counterexample. -/
def ruleC8a : Rule :=
  { acl_number := some 1, action := some actionPermit, protocol := some strTcp,
    source := some strNet24, destination := some strDestA, port := none }

/-- Second rule with a plain-address source, which makes the pairwise
scan raise on pair (0, 1). -/
def ruleC8b : Rule :=
  { acl_number := some 2, action := some actionPermit, protocol := some strTcp,
    source := some strHost5, destination := some strDestB, port := none }

/-- Third rule (`10.0.0.0/25`), overlapping rule 0. -/
def ruleC8c : Rule :=
  { acl_number := some 3, action := some actionPermit, protocol := some strTcp,
    source := some strNet25, destination := some strDestC, port := none }

/-- C8 counterexample: the claim says every rule pair is examined on
every input.  Here the comparison of pair (0, 1) raises `TypeError`,
which aborts the scan, so the qualifying overlapping pair (0, 2) — same
protocol, `check_overlap` returns `True` on its sources — is never
examined and produces no finding. -/
theorem C8_counterexample :
    validate_acl_rules roleReadWrite [ruleC8a, ruleC8b, ruleC8c] =
        ([], Except.error PyErr.typeError) ∧
      check_overlap strNet24 strDestA strNet25 strDestC = Except.ok true ∧
      Finding.overlapPair 0 2 ∉
        (validate_acl_rules roleReadWrite [ruleC8a, ruleC8b, ruleC8c]).1 := by
  refine ⟨by decide, by decide, by decide⟩

/-- Permit rule overlapping the deny rule below (C8 witness). -/
def ruleC8w1 : Rule :=
  { acl_number := some 1, action := some actionPermit, protocol := some strTcp,
    source := some strNet24, destination := some strDestA, port := none }

/-- Deny rule overlapping the permit rule above (C8 witness). -/
def ruleC8w2 : Rule :=
  { acl_number := some 2, action := some actionDeny, protocol := some strTcp,
    source := some strNet25, destination := some strDestB, port := none }

theorem C8_amended_witness :
    Finding.overlapPair (min 0 1) (max 0 1) ∈
      (validate_acl_rules roleReadWrite [ruleC8w1, ruleC8w2]).1 :=
  (C8_amended roleReadWrite [ruleC8w1, ruleC8w2] false (by decide)).2 0 1
    (by decide)

end ACLTool
